import Mathlib

/-!
# Verification of `convert_logs_to_excel.py`

A shallow embedding of the core of `convert_logs_to_excel.py` — a batch
converter that parses ASCII-art tables out of plain-text log files and
flattens them into sorted spreadsheet rows — together with proofs of the
specification's claims about it.

Python strings are modelled as Lean `String`s; Python `dict`s as
association lists with insertion-order semantics; Python `None` /
missing values as `Option`; Python `float` arithmetic on the decimal
literals handled by `parse_parameters` as exact rational arithmetic
(`ℚ`, which agrees with IEEE doubles on every value the claims test);
a raised exception (pandas `KeyError`) as `Except`.
-/

namespace ConvertLogs

/-! ## Python string primitives

Models of the Python `str` methods the script uses. -/

/-- The characters Python's `str.strip()` (and the regex class `\s`, for
ASCII input) treats as whitespace: space, tab, newline, carriage return,
vertical tab, form feed. -/
def pyIsSpace (c : Char) : Bool :=
  c = ' ' || c = '\t' || c = '\n' || c = '\r' || c = '\x0b' || c = '\x0c'

/-- Strip characters satisfying `p` from both ends of a character list. -/
def stripList (p : Char → Bool) (cs : List Char) : List Char :=
  ((cs.dropWhile p).reverse.dropWhile p).reverse

/-- Python `s.strip()`: remove leading and trailing whitespace. -/
def pyStrip (s : String) : String :=
  String.mk (stripList pyIsSpace s.toList)

/-- Python `s.strip("|")`: remove ALL leading and trailing `|` characters
(not just one of each — `str.strip` strips a character class repeatedly). -/
def pyStripPipes (s : String) : String :=
  String.mk (stripList (· = '|') s.toList)

/-- Python `s.rstrip("\n")`: remove trailing newline characters. -/
def pyRstripNewline (s : String) : String :=
  String.mk (s.toList.reverse.dropWhile (· = '\n')).reverse

/-- Python `str.upper()` (ASCII, which is all the script's labels use). -/
def pyUpper (s : String) : String :=
  String.mk (s.toList.map Char.toUpper)

/-- Split a character list at every character satisfying `p`; `n`
separators yield `n + 1` pieces (the semantics of Python `str.split(sep)`
for a one-character separator). -/
def splitPred (p : Char → Bool) : List Char → List (List Char)
  | [] => [[]]
  | c :: cs =>
    match splitPred p cs with
    | [] => [[]]
    | g :: gs => if p c then [] :: g :: gs else (c :: g) :: gs

/-- Python `s.split("|")`. -/
def pySplitPipes (s : String) : List String :=
  (splitPred (· = '|') s.toList).map String.mk

/-- Python `" ".join(s.split())`: collapse every run of whitespace into a
single space and trim the ends (line 97 of the source). -/
def collapseSpaces (s : String) : String :=
  String.intercalate " "
    (((splitPred pyIsSpace s.toList).map String.mk).filter (· ≠ ""))

/-- Python `line.startswith("|")`. -/
def pyStartsWithPipe (s : String) : Bool :=
  match s.toList with
  | c :: _ => c = '|'
  | [] => false

/-- Python `text.splitlines()` restricted to `\n` separators (the file is
read through universal-newline decoding, so `\n` is the only line break
the parser ever sees): split at every newline, except that a trailing
newline does not produce a final empty line, and the empty string has no
lines. -/
def pySplitlines (s : String) : List String :=
  let pieces := (splitPred (· = '\n') s.toList).map String.mk
  if s.toList = [] then []
  else if s.toList.getLast? = some '\n' then pieces.dropLast
  else pieces

/-! ## Python `dict` model

Association lists with Python `dict` semantics: assigning to an existing
key updates the value in place (keeping its original position); a new key
is appended at the end. -/

/-- `d[k] = v` on a Python dict. -/
def pyDictInsert (d : List (String × String)) (kv : String × String) :
    List (String × String) :=
  if d.any (fun p => p.1 = kv.1) then
    d.map (fun p => if p.1 = kv.1 then (p.1, kv.2) else p)
  else
    d ++ [kv]

/-- Python `dict(pairs)`: insert the pairs left to right into an empty
dict; later values for a duplicate key overwrite earlier ones. -/
def pyDict (l : List (String × String)) : List (String × String) :=
  l.foldl pyDictInsert []

/-- Python `d.get(k)` / membership-guarded indexing. -/
def pyDictGet (d : List (String × String)) (k : String) : Option String :=
  (d.find? (fun p => p.1 = k)).map Prod.snd

/-! ## `split_blocks` (source lines 35–57)

Break the text into logical blocks separated by blank lines. -/

/-- One iteration of the `for line in text.splitlines()` loop: state is
`(blocks, current)`. A blank line closes the current block (if any);
a non-blank line is appended to the current block after `rstrip("\n")`. -/
def splitStep (acc : List (List String) × List String) (line : String) :
    List (List String) × List String :=
  if pyStrip line = "" then
    if acc.2 = [] then acc else (acc.1 ++ [acc.2], [])
  else
    (acc.1, acc.2 ++ [pyRstripNewline line])

/-- `split_blocks(text)`: fold the loop over the lines, then flush the
final block if the text did not end with a blank line. -/
def split_blocks (text : String) : List (List String) :=
  let r := (pySplitlines text).foldl splitStep ([], [])
  if r.2 = [] then r.1 else r.1 ++ [r.2]

/-! ## `ESTIMATE_COLUMNS` (source lines 15–32) -/

/-- The fixed, hardcoded schema used for blocks labelled `ESTIMATE`. -/
def ESTIMATE_COLUMNS : List String := [
  "ARCH",
  "CONTEXT SIZE",
  "BATCH SIZE (L / P)",
  "FLASH ATTENTION",
  "MMAP LOAD",
  "EMBEDDING ONLY",
  "RERANKING",
  "DISTRIBUTABLE",
  "OFFLOAD LAYERS",
  "FULL OFFLOADED",
  "RAM LAYERS (I + T + O)",
  "RAM UMA",
  "RAM NONUMA",
  "VRAM0 LAYERS (T + O)",
  "VRAM0 UMA",
  "VRAM0 NONUMA"]

/-! ## `parse_block` (source lines 60–110) -/

/-- The lines of a block that look like table rows: they start with the
`|` delimiter (source line 65). -/
def candidateRows (block : List String) : List String :=
  block.filter (fun l => pyStartsWithPipe l)

/-- Parse one candidate line into cells (source line 73): strip the outer
pipes (`row.strip("|")` removes ALL leading and trailing pipes), split on
`|`, and strip whitespace from each cell. -/
def parseRow (row : String) : List String :=
  (pySplitPipes (pyStripPipes row)).map pyStrip

/-- The synthetic column name `f"EXTRA_{i}"` (source line 102). -/
def extraName (i : Nat) : String :=
  "EXTRA_" ++ toString i

/-- Reconcile a length mismatch between the column list and the data row
(source lines 101–106): too few columns are padded with
`EXTRA_len, EXTRA_len+1, …`; too many are truncated. -/
def reconcileColumns (columns : List String) (dataRow : List String) :
    List String :=
  if columns.length < dataRow.length then
    columns ++
      (List.range' columns.length (dataRow.length - columns.length)).map extraName
  else if columns.length > dataRow.length then
    columns.take dataRow.length
  else
    columns

/-- Everything `parse_block` computes, with the source's intermediate
variables exposed as fields: `headerColumns` is `columns` after the
whitespace normalization of line 97 but before the length reconciliation;
`columns` is the final reconciled list of lines 101–106. -/
structure ParsedBlock where
  label : Option String
  headerColumns : List String
  columns : List String
  dataRow : List String
  values : List (String × String)
deriving DecidableEq, Repr

/-- The body of `parse_block` (source lines 60–110). -/
def parse_block_full (block : List String) : ParsedBlock :=
  match (candidateRows block).map parseRow with
  | [] => ⟨none, [], [], [], []⟩
  | first :: rest =>
    let label := pyUpper (first.headD "")
    let table_rows := rest.filter (fun r => r.length > 1)
    match table_rows.getLast? with
    | none => ⟨some label, [], [], [], []⟩
    | some data_row =>
      let columns0 := if label = "ESTIMATE" then ESTIMATE_COLUMNS
                      else table_rows.headD []
      let headerColumns := columns0.map collapseSpaces
      let columns := reconcileColumns headerColumns data_row
      ⟨some label, headerColumns, columns, data_row,
        pyDict (columns.zip data_row)⟩

/-- `parse_block(block)`: the `(label, values)` pair the source returns. -/
def parse_block (block : List String) :
    Option String × List (String × String) :=
  ((parse_block_full block).label, (parse_block_full block).values)

/-- `parse_block` with the module-level global `ESTIMATE_COLUMNS` threaded
explicitly as state: the function receives the global's current value and
returns it alongside the result. Every step of the source rebinds the
local `columns` to a freshly built list (a comprehension, `+`, slicing) —
no operation mutates the global in place — so the state passes through
each branch unchanged. -/
def parse_block_global (block : List String)
    (estimate_columns : List String) :
    (Option String × List (String × String)) × List String :=
  match (candidateRows block).map parseRow with
  | [] => ((none, []), estimate_columns)
  | first :: rest =>
    let label := pyUpper (first.headD "")
    let table_rows := rest.filter (fun r => r.length > 1)
    match table_rows.getLast? with
    | none => ((some label, []), estimate_columns)
    | some data_row =>
      let columns0 := if label = "ESTIMATE" then estimate_columns
                      else table_rows.headD []
      let headerColumns := columns0.map collapseSpaces
      let columns := reconcileColumns headerColumns data_row
      ((some label, pyDict (columns.zip data_row)), estimate_columns)

/-! ## `parse_file` (source lines 113–141) -/

/-- The loop body of `parse_file`: merge one block's values into the
record with `"{label}_"`-prefixed keys. Blocks with a falsy label (`None`
or the empty string) or an empty values dict are skipped. -/
def mergeBlock (record : List (String × String)) (block : List String) :
    List (String × String) :=
  match parse_block block with
  | (none, _) => record
  | (some label, values) =>
    if label = "" ∨ values = [] then record
    else values.foldl
      (fun r kv => pyDictInsert r (label ++ "_" ++ kv.1, kv.2)) record

/-- `parse_file(path)`, with the file's decoded text and name passed in
(the `path.read_text` I/O is out of scope). Empty or whitespace-only
files yield `none`. -/
def parse_file (text : String) (name : String) :
    Option (List (String × String)) :=
  if pyStrip text = "" then none
  else some ((split_blocks text).foldl mergeBlock [("file", name)])

/-! ## `parse_parameters` (source lines 144–189)

The regex `([0-9]+(?:\.[0-9]+)?)\s*([KMBkmb])` is anchored at the start
by `re.match` and is deterministic: the character classes `[0-9]`, `\.`,
`\s` and `[KMBkmb]` are pairwise disjoint at every boundary of the
pattern, so no backtracking can ever succeed where the greedy
left-to-right parser below fails; the parser computes exactly the
regex's match (`matchMagnitude_sound`/`matchMagnitude_complete` below
prove it against the declarative reading of the pattern). -/

/-- The regex class `[KMBkmb]`. -/
def isUnitChar (c : Char) : Bool :=
  c = 'K' || c = 'M' || c = 'B' || c = 'k' || c = 'm' || c = 'b'

/-- The numeric value of a digit string (what `float` reads before the
decimal point, or after it). -/
def digitsToNat (ds : List Char) : Nat :=
  ds.foldl (fun n c => 10 * n + (c.toNat - '0'.toNat)) 0

/-- The `\s*([KMBkmb])` tail of the regex: skip whitespace, require a
unit letter, and package the captured groups. -/
def matchUnit (ip fv fl : Nat) (r2 : List Char) :
    Option (Nat × Nat × Nat × Char) :=
  match (r2.dropWhile pyIsSpace).head? with
  | none => none
  | some u => if isUnitChar u then some (ip, fv, fl, u) else none

/-- The `(?:\.[0-9]+)?` optional fraction: it participates only when a
dot is immediately followed by at least one digit; otherwise it matches
empty and consumes nothing. -/
def matchAfterDigits (ds r1 : List Char) :
    Option (Nat × Nat × Nat × Char) :=
  if r1.head? = some '.' ∧ ¬((r1.drop 1).takeWhile Char.isDigit).isEmpty then
    matchUnit (digitsToNat ds) (digitsToNat ((r1.drop 1).takeWhile Char.isDigit))
      ((r1.drop 1).takeWhile Char.isDigit).length
      ((r1.drop 1).dropWhile Char.isDigit)
  else
    matchUnit (digitsToNat ds) 0 0 r1

/-- `re.match(r"([0-9]+(?:\.[0-9]+)?)\s*([KMBkmb])", text)`, returning
`(integer part, fraction digits value, fraction length, unit char)`. -/
def matchMagnitude (cs : List Char) : Option (Nat × Nat × Nat × Char) :=
  if (cs.takeWhile Char.isDigit).isEmpty then none
  else matchAfterDigits (cs.takeWhile Char.isDigit) (cs.dropWhile Char.isDigit)

/-- The `{"K": 1_000, "M": 1_000_000, "B": 1_000_000_000}.get(unit)`
lookup (source line 182), applied to the already-uppercased unit. -/
def unitLookup (u : Char) : Option ℚ :=
  if u = 'K' then some 1000
  else if u = 'M' then some 1000000
  else if u = 'B' then some 1000000000
  else none

/-- `amount * multiplier` from the regex groups: `float(group(1))` is the
integer part plus the fraction digits over `10^length`, exact over `ℚ`. -/
def magnitudeValue (t : Nat × Nat × Nat × Char) : Option ℚ :=
  match unitLookup t.2.2.2.toUpper with
  | none => none
  | some m => some (((t.1 : ℚ) + (t.2.1 : ℚ) / 10 ^ t.2.2.1) * m)

/-- `parse_parameters(value)` for `None`-or-string input (the script only
ever passes strings or missing values). -/
def parse_parameters (value : Option String) : Option ℚ :=
  match value with
  | none => none
  | some v =>
    if pyStrip v = "" then none
    else
      match matchMagnitude (pyStrip v).toList with
      | none => none
      | some t => magnitudeValue t

/-! ## `size_category` (source lines 192–210) -/

def size_category (params : Option ℚ) : String :=
  match params with
  | none => "Unknown"
  | some p =>
    if p < 1000000000 then "Small (<1B)"
    else if p < 10000000000 then "Medium (1-10B)"
    else if p < 100000000000 then "Large (10-100B)"
    else "Ultra-Large (100B+)"

/-! ## The driver `main` (source lines 213–325)

Only the record/column/sort pipeline is modelled; globbing, pandas
serialization and the locked-file fallback are I/O plumbing outside the
parser core. -/

/-- The `for key in record: if key not in column_order: append` loop
(source lines 236–238). -/
def updateColumnOrder (order : List String)
    (record : List (String × String)) : List String :=
  record.foldl (fun o kv => if kv.1 ∈ o then o else o ++ [kv.1]) order

/-- The whole column-discovery loop: `column_order` starts as `["file"]`
and each parsed record contributes its unseen keys in order. -/
def buildColumnOrder (records : List (List (String × String))) :
    List String :=
  records.foldl updateColumnOrder ["file"]

/-- Source lines 258–271: insert `MODEL_SIZE_CATEGORY` right after
`METADATA_PARAMETERS` if that column was discovered, else at the end. -/
def insertDerivedColumn (order : List String) : List String :=
  let insert_at :=
    if "METADATA_PARAMETERS" ∈ order then
      List.indexOf "METADATA_PARAMETERS" order + 1
    else order.length
  if "MODEL_SIZE_CATEGORY" ∈ order then order
  else List.insertIdx insert_at "MODEL_SIZE_CATEGORY" order

/-- The column-order portion of `main` on already-parsed records. The
pandas access `df["METADATA_PARAMETERS"]` (source line 253) raises
`KeyError` when no record ever contained that key (the DataFrame then
has no such column), modelled as `Except.error`; it happens before the
`if "METADATA_PARAMETERS" in column_order` fallback of lines 260–265 can
run. -/
def mainColumnOrder (records : List (List (String × String))) :
    Except String (List String) :=
  if records.isEmpty then Except.ok ["file"]
  else if records.all (fun r => (pyDictGet r "METADATA_PARAMETERS").isNone) then
    Except.error "KeyError: METADATA_PARAMETERS"
  else
    Except.ok (insertDerivedColumn (buildColumnOrder records))

/-- The raw parameter count of a record: `parse_parameters` applied to
its `METADATA_PARAMETERS` cell (source line 253). A record without the
key holds pandas `NaN` there, and `parse_parameters(nan)` is `None` (the
string `"nan"` does not match the pattern), so the missing-key case is
also `none`. -/
def paramsOf (record : List (String × String)) : Option ℚ :=
  (pyDictGet record "METADATA_PARAMETERS").bind
    (fun v => parse_parameters (some v))

/-- `bucket_order` (source lines 274–280) followed by `.fillna(4)`:
every category label maps to its bucket index, anything unmapped to 4. -/
def bucketIndex (cat : String) : Nat :=
  if cat = "Small (<1B)" then 0
  else if cat = "Medium (1-10B)" then 1
  else if cat = "Large (10-100B)" then 2
  else if cat = "Ultra-Large (100B+)" then 3
  else 4

/-- The record's `_bucket_order` sort key. -/
def bucketOf (record : List (String × String)) : Nat :=
  bucketIndex (size_category (paramsOf record))

/-- `_params_sort` comparison: ascending on present values, `NaN`
(absent) sorts last (`na_position="last"`, the pandas default). -/
def paramLE : Option ℚ → Option ℚ → Bool
  | some a, some b => a ≤ b
  | some _, none => true
  | none, none => true
  | none, some _ => false

/-- The combined `sort_values(by=["_bucket_order", "_params_sort"])`
comparison. -/
def rowLE (r1 r2 : List (String × String)) : Bool :=
  bucketOf r1 < bucketOf r2 ||
    (bucketOf r1 = bucketOf r2 && paramLE (paramsOf r1) (paramsOf r2))

/-- The sorted output rows (source lines 291–294). pandas sorts by the
two keys ascending; its (unstable) quicksort is modelled by a sort
producing the same key order, which is all the row-order claim
constrains. -/
def sortedRecords (records : List (List (String × String))) :
    List (List (String × String)) :=
  records.mergeSort rowLE

/-! ## Specification-side definitions

Declarative restatements of spec sentences, used on the right-hand side
of refinement claims; each is written from the spec's words, to be
compared against the operational definitions above. -/

/-- `'.' :: fraction digits` when the optional fraction group is present,
nothing when it is absent. -/
def fracRepr : Option (List Char) → List Char
  | none => []
  | some l => '.' :: l

/-- The spec's "numeric amount": digits, plus the optional decimal
fraction. -/
def specAmount (ds : List Char) (fs : Option (List Char)) : ℚ :=
  (digitsToNat ds : ℚ) + (digitsToNat (fs.getD []) : ℚ) / 10 ^ (fs.getD []).length

/-- The spec's unit multipliers: `K=10^3, M=10^6, B=10^9`
(case-insensitive). -/
def specMultiplier (u : Char) : ℚ :=
  if u.toUpper = 'K' then 1000
  else if u.toUpper = 'M' then 1000000
  else 1000000000

/-- The spec's leading-pattern contract for `parse_parameters`, read off
its words: the string starts with one or more digits, an optional
decimal fraction (a dot and one or more digits), optional whitespace,
then exactly one unit letter from `{K,k,M,m,B,b}` (anything may follow),
and the result is the numeric amount times the unit's multiplier. -/
def SpecMagnitude (cs : List Char) (q : ℚ) : Prop :=
  ∃ ds fs w rest u,
    cs = ds ++ fracRepr fs ++ w ++ u :: rest
    ∧ ds ≠ [] ∧ (∀ c ∈ ds, c.isDigit)
    ∧ (∀ l, fs = some l → l ≠ [] ∧ ∀ c ∈ l, c.isDigit)
    ∧ (∀ c ∈ w, pyIsSpace c)
    ∧ isUnitChar u
    ∧ q = specAmount ds fs * specMultiplier u

/-- The row order the spec claims for the output: ascending size-category
bucket, then parameter count ascending with absent counts last. -/
def claimParamOrder : Option ℚ → Option ℚ → Prop
  | some a, some b => a ≤ b
  | some _, none => True
  | none, none => True
  | none, some _ => False

/-- The claimed pairwise order of output rows. -/
def rowClaimOrder (r1 r2 : List (String × String)) : Prop :=
  bucketOf r1 < bucketOf r2 ∨
    (bucketOf r1 = bucketOf r2 ∧ claimParamOrder (paramsOf r1) (paramsOf r2))

/-! ## Lemmas: whitespace stripping -/

/-- A both-ends strip gives the empty list exactly when every character
was strippable. -/
lemma stripList_eq_nil_iff {p : Char → Bool} {cs : List Char} :
    stripList p cs = [] ↔ ∀ c ∈ cs, p c := by
  unfold stripList
  rw [List.reverse_eq_nil_iff, List.dropWhile_eq_nil_iff]
  constructor
  · intro h c hc
    rcases (List.mem_append.mp
        (by rw [List.takeWhile_append_dropWhile] at *; exact hc :
          c ∈ cs.takeWhile p ++ cs.dropWhile p)) with h1 | h1
    · exact List.mem_takeWhile_imp h1
    · exact h c (List.mem_reverse.mpr h1)
  · intro h c hc
    exact h c ((cs.dropWhile_sublist p).mem (List.mem_reverse.mp hc))

lemma pyStrip_eq_empty_iff {s : String} :
    pyStrip s = "" ↔ ∀ c ∈ s.toList, pyIsSpace c := by
  unfold pyStrip
  constructor
  · intro h
    have : stripList pyIsSpace s.toList = [] := congrArg String.toList h
    exact stripList_eq_nil_iff.mp this
  · intro h
    rw [stripList_eq_nil_iff.mpr h]

/-- `rstrip("\n")` removes only whitespace, so it cannot turn a
non-blank line blank. -/
lemma pyStrip_pyRstripNewline_ne {s : String} (h : pyStrip s ≠ "") :
    pyStrip (pyRstripNewline s) ≠ "" := by
  intro hcon
  apply h
  rw [pyStrip_eq_empty_iff] at hcon ⊢
  intro c hc
  have hsplit : c ∈ s.toList.reverse.takeWhile (· = '\n') ++
      s.toList.reverse.dropWhile (· = '\n') := by
    rw [List.takeWhile_append_dropWhile]
    exact List.mem_reverse.mpr hc
  rcases List.mem_append.mp hsplit with h1 | h1
  · have hc2 : c = '\n' := by
      have := List.mem_takeWhile_imp h1
      simpa using this
    simp [pyIsSpace, hc2]
  · apply hcon
    show c ∈ (String.mk (s.toList.reverse.dropWhile (· = '\n')).reverse).toList
    exact List.mem_reverse.mpr h1

/-- Stripping ignores an extra strippable character at the front. -/
lemma stripList_cons_of {p : Char → Bool} {c : Char} (h : p c)
    (cs : List Char) : stripList p (c :: cs) = stripList p cs := by
  unfold stripList
  rw [List.dropWhile_cons_of_pos h]

/-- Stripping ignores an extra strippable character at the back. -/
lemma stripList_append_of {p : Char → Bool} {c : Char} (h : p c)
    (cs : List Char) : stripList p (cs ++ [c]) = stripList p cs := by
  unfold stripList
  rw [List.dropWhile_append]
  by_cases he : (cs.dropWhile p).isEmpty
  · rw [if_pos he]
    rw [List.isEmpty_iff] at he
    rw [he]
    simp [List.dropWhile_cons, h]
  · rw [if_neg he]
    rw [List.reverse_append]
    simp only [List.reverse_singleton, List.singleton_append]
    rw [List.dropWhile_cons_of_pos h]

/-! ## Lemmas: takeWhile / dropWhile splitting -/

/-- If every element of `l1` passes `p` and the head of `l2` (if any)
fails it, then `takeWhile`/`dropWhile` split `l1 ++ l2` exactly at the
seam. -/
lemma takeWhile_append_head {p : Char → Bool} (l1 l2 : List Char)
    (h1 : ∀ c ∈ l1, p c) (h2 : ∀ c, l2.head? = some c → p c = false) :
    (l1 ++ l2).takeWhile p = l1 ∧ (l1 ++ l2).dropWhile p = l2 := by
  induction l1 with
  | nil =>
    simp only [List.nil_append]
    cases l2 with
    | nil => simp
    | cons c t =>
      have hc := h2 c rfl
      simp [List.takeWhile_cons, List.dropWhile_cons, hc]
  | cons a l ih =>
    have ha : p a := h1 a (List.mem_cons_self a l)
    obtain ⟨ht, hd⟩ := ih (fun c hc => h1 c (List.mem_cons_of_mem a hc))
    simp [List.takeWhile_cons, List.dropWhile_cons, ha, ht, hd]

/-! ## Lemmas: character classes of the magnitude regex -/

lemma pyIsSpace_not_digit {c : Char} (h : pyIsSpace c) :
    c.isDigit = false := by
  simp only [pyIsSpace, Bool.or_eq_true, decide_eq_true_eq] at h
  rcases h with ((((h | h) | h) | h) | h) | h <;> subst h <;> decide

lemma isUnitChar_not_digit {c : Char} (h : isUnitChar c) :
    c.isDigit = false := by
  simp only [isUnitChar, Bool.or_eq_true, decide_eq_true_eq] at h
  rcases h with ((((h | h) | h) | h) | h) | h <;> subst h <;> decide

lemma isUnitChar_not_space {c : Char} (h : isUnitChar c) :
    pyIsSpace c = false := by
  simp only [isUnitChar, Bool.or_eq_true, decide_eq_true_eq] at h
  rcases h with ((((h | h) | h) | h) | h) | h <;> subst h <;> decide

lemma isUnitChar_ne_dot {c : Char} (h : isUnitChar c) : c ≠ '.' := by
  simp only [isUnitChar, Bool.or_eq_true, decide_eq_true_eq] at h
  rcases h with ((((h | h) | h) | h) | h) | h <;> subst h <;> decide

lemma pyIsSpace_ne_dot {c : Char} (h : pyIsSpace c) : c ≠ '.' := by
  simp only [pyIsSpace, Bool.or_eq_true, decide_eq_true_eq] at h
  rcases h with ((((h | h) | h) | h) | h) | h <;> subst h <;> decide

/-! ## Lemmas: the `split_blocks` loop -/

/-- Folding over non-blank lines only grows the current block. -/
lemma foldl_splitStep_of_no_blank (lines : List String)
    (h : ∀ l ∈ lines, pyStrip l ≠ "") (bs : List (List String))
    (cur : List String) :
    lines.foldl splitStep (bs, cur) =
      (bs, cur ++ lines.map pyRstripNewline) := by
  induction lines generalizing cur with
  | nil => simp
  | cons l ls ih =>
    have hl : pyStrip l ≠ "" := h l (List.mem_cons_self l ls)
    simp only [List.foldl_cons, splitStep, hl, if_false, List.map_cons]
    rw [ih (fun x hx => h x (List.mem_cons_of_mem l hx))]
    simp

/-- Folding blank lines over an empty current block changes nothing. -/
lemma foldl_splitStep_of_all_blank (lines : List String)
    (h : ∀ l ∈ lines, pyStrip l = "") (bs : List (List String)) :
    lines.foldl splitStep (bs, []) = (bs, []) := by
  induction lines with
  | nil => rfl
  | cons l ls ih =>
    have hl : pyStrip l = "" := h l (List.mem_cons_self l ls)
    simp only [List.foldl_cons, splitStep, hl, if_true, if_pos rfl]
    exact ih (fun x hx => h x (List.mem_cons_of_mem l hx))

/-- The loop preserves "every stored line is non-blank". -/
lemma foldl_splitStep_no_blank_invariant (lines : List String) :
    ∀ bs cur,
      (∀ b ∈ bs, ∀ l ∈ b, pyStrip l ≠ "") →
      (∀ l ∈ cur, pyStrip l ≠ "") →
      (∀ b ∈ (lines.foldl splitStep (bs, cur)).1, ∀ l ∈ b, pyStrip l ≠ "")
        ∧ (∀ l ∈ (lines.foldl splitStep (bs, cur)).2, pyStrip l ≠ "") := by
  induction lines with
  | nil => intro bs cur h1 h2; exact ⟨h1, h2⟩
  | cons l ls ih =>
    intro bs cur h1 h2
    simp only [List.foldl_cons]
    by_cases hl : pyStrip l = ""
    · by_cases hcur : cur = []
      · subst hcur
        simpa [splitStep, hl] using ih bs [] h1 (by simp)
      · have heq : splitStep (bs, cur) l = (bs ++ [cur], []) := by
          simp [splitStep, hl, hcur]
        rw [heq]
        refine ih (bs ++ [cur]) [] ?_ (by simp)
        intro b hb
        rcases List.mem_append.mp hb with h | h
        · exact h1 b h
        · rw [List.mem_singleton.mp h]; exact h2
    · have heq : splitStep (bs, cur) l = (bs, cur ++ [pyRstripNewline l]) := by
        simp [splitStep, hl]
      rw [heq]
      refine ih bs _ h1 ?_
      intro x hx
      rcases List.mem_append.mp hx with h | h
      · exact h2 x h
      · rw [List.mem_singleton.mp h]
        exact pyStrip_pyRstripNewline_ne hl

/-- `split_blocks` unfolded (definitional). -/
lemma split_blocks_eq (text : String) :
    split_blocks text =
      if ((pySplitlines text).foldl splitStep ([], [])).2 = []
      then ((pySplitlines text).foldl splitStep ([], [])).1
      else ((pySplitlines text).foldl splitStep ([], [])).1 ++
        [((pySplitlines text).foldl splitStep ([], [])).2] := rfl

/-! ## Lemmas: the Python dict -/

/-- Inserting pairs whose keys are fresh and mutually distinct just
appends them. -/
lemma foldl_pyDictInsert_of_fresh (l : List (String × String)) :
    ∀ acc : List (String × String),
      (l.map Prod.fst).Nodup →
      (∀ k ∈ l.map Prod.fst, k ∉ acc.map Prod.fst) →
      l.foldl pyDictInsert acc = acc ++ l := by
  induction l with
  | nil => intro acc _ _; simp
  | cons kv l ih =>
    intro acc hnd hfresh
    rw [List.map_cons] at hnd
    obtain ⟨hhead, htail⟩ := List.nodup_cons.mp hnd
    have hkv : kv.1 ∉ acc.map Prod.fst :=
      hfresh kv.1 (by simp)
    have hins : pyDictInsert acc kv = acc ++ [kv] := by
      unfold pyDictInsert
      rw [if_neg]
      simp only [List.any_eq_true, decide_eq_true_eq, not_exists, not_and]
      intro p hp hcon
      exact hkv (hcon ▸ List.mem_map_of_mem Prod.fst hp)
    simp only [List.foldl_cons, hins]
    rw [ih (acc ++ [kv]) htail ?_]
    · simp
    · intro k hk
      simp only [List.map_append, List.mem_append, List.map_cons,
        List.mem_singleton, List.map_nil]
      push_neg
      refine ⟨hfresh k (by simp [hk]), ?_⟩
      intro hcon
      exact hhead (hcon ▸ hk)

/-- `dict(pairs)` is the pairs themselves when the keys are distinct. -/
lemma pyDict_eq_self_of_nodup {l : List (String × String)}
    (h : (l.map Prod.fst).Nodup) : pyDict l = l := by
  unfold pyDict
  rw [foldl_pyDictInsert_of_fresh l [] h (by simp)]
  simp

/-! ## Lemmas: `parse_block` structure -/

/-- The final fields of a parsed block are tied together exactly as the
source computes them: the reconciled columns come from the normalized
header columns and the data row, and `values` is `dict(zip(...))`. -/
lemma parse_block_full_shape (block : List String) :
    (parse_block_full block).columns =
      reconcileColumns (parse_block_full block).headerColumns
        (parse_block_full block).dataRow
  ∧ (parse_block_full block).values =
      pyDict ((parse_block_full block).columns.zip
        (parse_block_full block).dataRow) := by
  rcases hrows : (candidateRows block).map parseRow with - | ⟨first, rest⟩
  · simp [parse_block_full, hrows, reconcileColumns, pyDict]
  · rcases hlast : (rest.filter (fun r => r.length > 1)).getLast? with - | data_row
    · simp [parse_block_full, hrows, hlast, reconcileColumns, pyDict]
    · simp [parse_block_full, hrows, hlast]

/-- A block with a data row at all has a non-empty one: data rows are
drawn from rows with more than one cell. -/
lemma parse_block_full_dataRow_ne (block : List String)
    (h : (parse_block_full block).dataRow ≠ []) :
    ∃ first rest data_row,
      (candidateRows block).map parseRow = first :: rest
      ∧ (rest.filter (fun r => r.length > 1)).getLast? = some data_row
      ∧ parse_block_full block =
        ⟨some (pyUpper (first.headD "")),
          ((if pyUpper (first.headD "") = "ESTIMATE" then ESTIMATE_COLUMNS
            else (rest.filter (fun r => r.length > 1)).headD []).map collapseSpaces),
          reconcileColumns
            ((if pyUpper (first.headD "") = "ESTIMATE" then ESTIMATE_COLUMNS
              else (rest.filter (fun r => r.length > 1)).headD []).map collapseSpaces)
            data_row,
          data_row,
          pyDict ((reconcileColumns
            ((if pyUpper (first.headD "") = "ESTIMATE" then ESTIMATE_COLUMNS
              else (rest.filter (fun r => r.length > 1)).headD []).map collapseSpaces)
            data_row).zip data_row)⟩ := by
  rcases hrows : (candidateRows block).map parseRow with - | ⟨first, rest⟩
  · exact absurd (by simp [parse_block_full, hrows]) h
  · rcases hlast : (rest.filter (fun r => r.length > 1)).getLast? with - | data_row
    · exact absurd (by simp [parse_block_full, hrows, hlast]) h
    · exact ⟨first, rest, data_row, rfl, hlast, by simp [parse_block_full, hrows, hlast]⟩

/-- Length of the reconciled column list equals the data-row length. -/
lemma reconcileColumns_length (columns dataRow : List String) :
    (reconcileColumns columns dataRow).length = dataRow.length := by
  unfold reconcileColumns
  rcases Nat.lt_trichotomy columns.length dataRow.length with h | h | h
  · rw [if_pos h]
    simp only [List.length_append, List.length_map, List.length_range']
    omega
  · rw [if_neg (by omega), if_neg (by omega)]
    exact h
  · rw [if_neg (by omega), if_pos h]
    simp only [List.length_take]
    omega

/-- Normalizing whitespace is the identity on the fixed estimate
schema (its names are already single-spaced and trimmed). -/
lemma collapseSpaces_estimate :
    ESTIMATE_COLUMNS.map collapseSpaces = ESTIMATE_COLUMNS := by decide

/-- Reconciling the 16-name estimate schema against a data row truncates
it to the row length and pads with `EXTRA_16, …` beyond 16 cells. -/
lemma reconcileColumns_estimate (dataRow : List String) :
    reconcileColumns ESTIMATE_COLUMNS dataRow =
      ESTIMATE_COLUMNS.take dataRow.length ++
        (List.range' 16 (dataRow.length - 16)).map extraName := by
  have h16 : ESTIMATE_COLUMNS.length = 16 := by decide
  unfold reconcileColumns
  rcases Nat.lt_trichotomy ESTIMATE_COLUMNS.length dataRow.length with h | h | h
  · rw [if_pos h, h16]
    rw [List.take_of_length_le (by omega)]
  · rw [if_neg (by omega), if_neg (by omega)]
    rw [List.take_of_length_le (by omega)]
    rw [show dataRow.length - 16 = 0 by omega]
    simp
  · rw [if_neg (by omega), if_pos h]
    rw [show dataRow.length - 16 = 0 by omega]
    simp

/-! ## Lemmas: `insertIdx` -/

/-- A list is a sublist of itself with one element inserted anywhere. -/
lemma sublist_insertIdx (x : String) :
    ∀ (n : Nat) (l : List String), List.Sublist l (List.insertIdx n x l) := by
  intro n
  induction n with
  | zero => intro l; rw [List.insertIdx_zero]; exact List.sublist_cons_self x l
  | succ n ih =>
    intro l
    cases l with
    | nil => simp
    | cons a t => rw [List.insertIdx_succ_cons]; exact (ih t).cons₂ a

/-- Inserting at a positive index keeps the head. -/
lemma head?_insertIdx_pos (x : String) (n : Nat) (l : List String)
    (h : 1 ≤ n) : (List.insertIdx n x l).head? = l.head? := by
  cases n with
  | zero => omega
  | succ n =>
    cases l with
    | nil => simp
    | cons a t => rw [List.insertIdx_succ_cons]; rfl

/-! ## Lemmas: the column-order accumulator -/

/-- One record only appends fresh, mutually distinct keys to the order. -/
lemma updateColumnOrder_append (o : List String)
    (r : List (String × String)) :
    ∃ new, updateColumnOrder o r = o ++ new
      ∧ (∀ k ∈ new, k ∉ o) ∧ new.Nodup := by
  unfold updateColumnOrder
  induction r generalizing o with
  | nil => exact ⟨[], by simp⟩
  | cons kv r ih =>
    simp only [List.foldl_cons]
    by_cases hk : kv.1 ∈ o
    · rw [if_pos hk]
      exact ih o
    · rw [if_neg hk]
      obtain ⟨new, heq, hfresh, hnd⟩ := ih (o ++ [kv.1])
      refine ⟨kv.1 :: new, by simpa using heq, ?_, ?_⟩
      · intro k hkm
        rcases List.mem_cons.mp hkm with h | h
        · exact h ▸ hk
        · intro hcon
          exact hfresh k h (List.mem_append_left _ hcon)
      · refine List.nodup_cons.mpr ⟨?_, hnd⟩
        intro hcon
        exact hfresh kv.1 hcon (by simp)

/-- The whole run only appends fresh, mutually distinct keys. -/
lemma foldl_updateColumnOrder_append
    (records : List (List (String × String))) :
    ∀ o, ∃ new, records.foldl updateColumnOrder o = o ++ new
      ∧ (∀ k ∈ new, k ∉ o) ∧ new.Nodup := by
  induction records with
  | nil => intro o; exact ⟨[], by simp⟩
  | cons r rs ih =>
    intro o
    obtain ⟨n1, h1, hf1, hnd1⟩ := updateColumnOrder_append o r
    obtain ⟨n2, h2, hf2, hnd2⟩ := ih (updateColumnOrder o r)
    refine ⟨n1 ++ n2, ?_, ?_, ?_⟩
    · rw [List.foldl_cons, h2, h1, List.append_assoc]
    · intro k hk
      rcases List.mem_append.mp hk with h | h
      · exact hf1 k h
      · intro hcon
        exact hf2 k h (h1 ▸ List.mem_append_left _ hcon)
    · rw [List.nodup_append]
      refine ⟨hnd1, hnd2, ?_⟩
      intro k hk1 hk2
      exact hf2 k hk2 (h1 ▸ List.mem_append_right _ hk1)

/-! ## Lemmas: the row order -/

lemma paramLE_iff (p q : Option ℚ) :
    paramLE p q = true ↔ claimParamOrder p q := by
  cases p <;> cases q <;> simp [paramLE, claimParamOrder]

lemma rowLE_iff (a b : List (String × String)) :
    rowLE a b = true ↔ rowClaimOrder a b := by
  simp [rowLE, rowClaimOrder, paramLE_iff, Bool.or_eq_true,
    Bool.and_eq_true, decide_eq_true_eq]

lemma claimParamOrder_trans {p q r : Option ℚ}
    (h1 : claimParamOrder p q) (h2 : claimParamOrder q r) :
    claimParamOrder p r := by
  cases p <;> cases q <;> cases r <;> simp_all [claimParamOrder]
  exact le_trans h1 h2

lemma rowLE_trans (a b c : List (String × String))
    (h1 : rowLE a b = true) (h2 : rowLE b c = true) :
    rowLE a c = true := by
  rw [rowLE_iff] at *
  rcases h1 with h1 | ⟨h1, h1p⟩ <;> rcases h2 with h2 | ⟨h2, h2p⟩
  · exact Or.inl (h1.trans h2)
  · exact Or.inl (h2 ▸ h1)
  · exact Or.inl (h1 ▸ h2)
  · exact Or.inr ⟨h1.trans h2, claimParamOrder_trans h1p h2p⟩

lemma rowLE_total (a b : List (String × String)) :
    (rowLE a b || rowLE b a) = true := by
  rw [Bool.or_eq_true, rowLE_iff, rowLE_iff]
  rcases Nat.lt_trichotomy (bucketOf a) (bucketOf b) with h | h | h
  · exact Or.inl (Or.inl h)
  · rcases hp : paramsOf a with - | x <;> rcases hq : paramsOf b with - | y
    · exact Or.inl (Or.inr ⟨h, by simp [claimParamOrder, hp, hq]⟩)
    · exact Or.inr (Or.inr ⟨h.symm, by simp [claimParamOrder, hp, hq]⟩)
    · exact Or.inl (Or.inr ⟨h, by simp [claimParamOrder, hp, hq]⟩)
    · rcases le_total x y with hxy | hxy
      · exact Or.inl (Or.inr ⟨h, by simp [claimParamOrder, hp, hq, hxy]⟩)
      · exact Or.inr (Or.inr ⟨h.symm, by simp [claimParamOrder, hp, hq, hxy]⟩)
  · exact Or.inr (Or.inl h)

/-! ## Lemmas: the magnitude regex -/

lemma unitLookup_of_unit {u : Char} (h : isUnitChar u) :
    unitLookup u.toUpper = some (specMultiplier u) := by
  simp only [isUnitChar, Bool.or_eq_true, decide_eq_true_eq] at h
  rcases h with ((((h | h) | h) | h) | h) | h <;> subst h <;> rfl

lemma matchUnit_complete (ip fv fl : Nat) {w rest : List Char} {u : Char}
    (hw : ∀ c ∈ w, pyIsSpace c) (hu : isUnitChar u) :
    matchUnit ip fv fl (w ++ u :: rest) = some (ip, fv, fl, u) := by
  have hd : (w ++ u :: rest).dropWhile pyIsSpace = u :: rest := by
    refine (takeWhile_append_head w (u :: rest) hw ?_).2
    intro c hc
    have : u = c := by simpa using hc
    subst this
    exact isUnitChar_not_space hu
  unfold matchUnit
  rw [hd]
  simp [hu]

lemma matchUnit_sound {ip fv fl ip2 fv2 fl2 : Nat} {r2 : List Char}
    {u : Char} (h : matchUnit ip fv fl r2 = some (ip2, fv2, fl2, u)) :
    ip2 = ip ∧ fv2 = fv ∧ fl2 = fl ∧ isUnitChar u ∧
      ∃ w rest, r2 = w ++ u :: rest ∧ ∀ c ∈ w, pyIsSpace c := by
  unfold matchUnit at h
  rcases hdw : r2.dropWhile pyIsSpace with - | ⟨c, t⟩
  · rw [hdw] at h
    exact absurd h (by simp)
  · rw [hdw] at h
    simp only [List.head?_cons] at h
    by_cases hu : isUnitChar c
    · rw [if_pos hu] at h
      simp only [Option.some.injEq, Prod.mk.injEq] at h
      obtain ⟨h1, h2, h3, h4⟩ := h
      subst h4
      refine ⟨h1.symm, h2.symm, h3.symm, hu,
        r2.takeWhile pyIsSpace, t, ?_, fun x hx => List.mem_takeWhile_imp hx⟩
      rw [← hdw, List.takeWhile_append_dropWhile]
    · rw [if_neg hu] at h
      exact absurd h (by simp)

lemma matchMagnitude_complete {ds : List Char} (fs : Option (List Char))
    {w rest : List Char} {u : Char}
    (hds : ds ≠ []) (hdig : ∀ c ∈ ds, c.isDigit)
    (hfs : ∀ l, fs = some l → l ≠ [] ∧ ∀ c ∈ l, c.isDigit)
    (hw : ∀ c ∈ w, pyIsSpace c) (hu : isUnitChar u) :
    matchMagnitude (ds ++ (fracRepr fs ++ (w ++ u :: rest))) =
      some (digitsToNat ds, digitsToNat (fs.getD []), (fs.getD []).length, u) := by
  have hnotdig : ∀ c : Char, (w ++ u :: rest).head? = some c →
      c.isDigit = false := by
    intro c hc
    cases w with
    | nil =>
      have : u = c := by simpa using hc
      exact this ▸ isUnitChar_not_digit hu
    | cons a t =>
      have : a = c := by simpa using hc
      exact this ▸ pyIsSpace_not_digit (hw a (List.mem_cons_self a t))
  have hhead : ∀ c : Char, (fracRepr fs ++ (w ++ u :: rest)).head? = some c →
      c.isDigit = false := by
    intro c hc
    cases fs with
    | none => exact hnotdig c (by simpa [fracRepr] using hc)
    | some l =>
      have : '.' = c := by simpa [fracRepr] using hc
      subst this
      decide
  obtain ⟨htake, hdrop⟩ := takeWhile_append_head ds _ hdig hhead
  unfold matchMagnitude
  rw [htake, hdrop, if_neg (by simpa [List.isEmpty_iff] using hds)]
  cases fs with
  | none =>
    simp only [fracRepr, List.nil_append, Option.getD_none]
    unfold matchAfterDigits
    rw [if_neg ?_]
    · simpa using matchUnit_complete (digitsToNat ds) 0 0 hw hu
    · rintro ⟨hdot, -⟩
      cases w with
      | nil =>
        have : u = '.' := by simpa using hdot
        exact isUnitChar_ne_dot hu this
      | cons a t =>
        have : a = '.' := by simpa using hdot
        exact pyIsSpace_ne_dot (hw a (List.mem_cons_self a t)) this
  | some l =>
    obtain ⟨hlne, hldig⟩ := hfs l rfl
    obtain ⟨hlt, hld⟩ := takeWhile_append_head l (w ++ u :: rest) hldig hnotdig
    simp only [fracRepr, List.cons_append, Option.getD_some]
    unfold matchAfterDigits
    simp only [List.head?_cons, List.drop_succ_cons, List.drop_zero]
    rw [hlt, hld, if_pos ⟨by trivial, by simpa [List.isEmpty_iff] using hlne⟩]
    exact matchUnit_complete _ _ _ hw hu

lemma matchMagnitude_sound {cs : List Char} {ip fv fl : Nat} {u : Char}
    (h : matchMagnitude cs = some (ip, fv, fl, u)) :
    isUnitChar u ∧ ∃ ds fs w rest,
      cs = ds ++ (fracRepr fs ++ (w ++ u :: rest))
      ∧ ds ≠ [] ∧ (∀ c ∈ ds, c.isDigit)
      ∧ (∀ l, fs = some l → l ≠ [] ∧ ∀ c ∈ l, c.isDigit)
      ∧ (∀ c ∈ w, pyIsSpace c)
      ∧ digitsToNat ds = ip ∧ digitsToNat (fs.getD []) = fv
      ∧ (fs.getD []).length = fl := by
  unfold matchMagnitude at h
  by_cases hemp : (cs.takeWhile Char.isDigit).isEmpty
  · rw [if_pos hemp] at h
    exact absurd h (by simp)
  · rw [if_neg hemp] at h
    have hds_ne : cs.takeWhile Char.isDigit ≠ [] := by
      simpa [List.isEmpty_iff] using hemp
    have hdig : ∀ c ∈ cs.takeWhile Char.isDigit, c.isDigit :=
      fun c hc => List.mem_takeWhile_imp hc
    have hcs : cs = cs.takeWhile Char.isDigit ++ cs.dropWhile Char.isDigit :=
      (List.takeWhile_append_dropWhile _ _).symm
    unfold matchAfterDigits at h
    by_cases hcond : (cs.dropWhile Char.isDigit).head? = some '.' ∧
        ¬(((cs.dropWhile Char.isDigit).drop 1).takeWhile Char.isDigit).isEmpty
    · rw [if_pos hcond] at h
      obtain ⟨hdot, hfne⟩ := hcond
      rcases hr1 : cs.dropWhile Char.isDigit with - | ⟨c0, t⟩
      · rw [hr1] at hdot
        exact absurd hdot (by simp)
      · rw [hr1] at hdot h hfne
        have hc0 : c0 = '.' := by simpa using hdot
        subst hc0
        simp only [List.drop_succ_cons, List.drop_zero] at h hfne
        obtain ⟨h1, h2, h3, hu2, w, rest, hr2, hwsp⟩ := matchUnit_sound h
        refine ⟨hu2, cs.takeWhile Char.isDigit, some (t.takeWhile Char.isDigit),
          w, rest, ?_, hds_ne, hdig, ?_, hwsp, h1.symm, h2.symm, h3.symm⟩
        · conv_lhs => rw [hcs, hr1]
          simp only [fracRepr, List.cons_append, List.append_cancel_left_eq,
            List.cons.injEq, true_and]
          rw [← hr2, List.takeWhile_append_dropWhile]
        · intro l hl
          injection hl with hl
          subst hl
          exact ⟨by simpa [List.isEmpty_iff] using hfne,
            fun c hc => List.mem_takeWhile_imp hc⟩
    · rw [if_neg hcond] at h
      obtain ⟨h1, h2, h3, hu2, w, rest, hr2, hwsp⟩ := matchUnit_sound h
      refine ⟨hu2, cs.takeWhile Char.isDigit, none, w, rest, ?_, hds_ne, hdig,
        by simp, hwsp, h1.symm, by simpa using h2.symm, by simpa using h3.symm⟩
      conv_lhs => rw [hcs, hr2]
      simp [fracRepr]

/-! ## The claims -/

/-- C6: for text with non-empty content and no blank lines the Block
Splitter returns exactly one block equal to the (newline-trimmed) line
list; for text of only blank lines it returns nothing; and no returned
block ever contains a blank line. -/
theorem c6_split_blocks (text : String) :
    ((pySplitlines text ≠ []) → (∀ l ∈ pySplitlines text, pyStrip l ≠ "") →
      split_blocks text = [(pySplitlines text).map pyRstripNewline])
  ∧ ((∀ l ∈ pySplitlines text, pyStrip l = "") → split_blocks text = [])
  ∧ (∀ b ∈ split_blocks text, ∀ l ∈ b, pyStrip l ≠ "") := by
  refine ⟨?_, ?_, ?_⟩
  · intro hne hnb
    rw [split_blocks_eq, foldl_splitStep_of_no_blank _ hnb]
    have hmap : (pySplitlines text).map pyRstripNewline ≠ [] := by
      simpa using hne
    simp [hmap]
  · intro hb
    rw [split_blocks_eq, foldl_splitStep_of_all_blank _ hb]
    simp
  · intro b hb l hl
    have hinv := foldl_splitStep_no_blank_invariant (pySplitlines text)
      [] [] (by simp) (by simp)
    rw [split_blocks_eq] at hb
    by_cases h2 : ((pySplitlines text).foldl splitStep ([], [])).2 = []
    · rw [if_pos h2] at hb
      exact hinv.1 b hb l hl
    · rw [if_neg h2] at hb
      rcases List.mem_append.mp hb with h | h
      · exact hinv.1 b h l hl
      · rw [List.mem_singleton.mp h] at hl
        exact hinv.2 l hl

/-- Witness for C6 at concrete inputs: a two-line text with no blank
lines gives exactly one block; an all-blank text gives none. -/
theorem c6_split_blocks_witness :
    split_blocks "a\nb" = [["a", "b"]] ∧ split_blocks " \n " = [] := by
  constructor
  · rw [(c6_split_blocks "a\nb").1 (by decide) (by decide)]
    decide
  · exact (c6_split_blocks " \n ").2.1 (by decide)

/-- C8: `size_category` maps absence to Unknown and otherwise buckets by
half-open decimal magnitude ranges; exactly `10^9` is Medium, not
Small. -/
theorem c8_size_category (p : ℚ) :
    size_category none = "Unknown"
  ∧ (p < 1000000000 → size_category (some p) = "Small (<1B)")
  ∧ (1000000000 ≤ p → p < 10000000000 →
      size_category (some p) = "Medium (1-10B)")
  ∧ (10000000000 ≤ p → p < 100000000000 →
      size_category (some p) = "Large (10-100B)")
  ∧ (100000000000 ≤ p → size_category (some p) = "Ultra-Large (100B+)")
  ∧ size_category (some 999999999) = "Small (<1B)"
  ∧ size_category (some 1000000000) = "Medium (1-10B)" := by
  refine ⟨rfl, ?_, ?_, ?_, ?_, by decide, by decide⟩
  · intro h
    simp [size_category, h]
  · intro h1 h2
    simp [size_category, not_lt.mpr h1, h2]
  · intro h1 h2
    have ha : ¬ p < 1000000000 :=
      not_lt.mpr (le_trans (by norm_num : (1000000000 : ℚ) ≤ 10000000000) h1)
    simp [size_category, ha, not_lt.mpr h1, h2]
  · intro h1
    have ha : ¬ p < 1000000000 :=
      not_lt.mpr (le_trans (by norm_num : (1000000000 : ℚ) ≤ 100000000000) h1)
    have hb : ¬ p < 10000000000 :=
      not_lt.mpr (le_trans (by norm_num : (10000000000 : ℚ) ≤ 100000000000) h1)
    simp [size_category, ha, hb, not_lt.mpr h1]

/-- Witness for C8: categorize a concrete small and a concrete large
count through the theorem. -/
theorem c8_size_category_witness :
    size_category (some 500000000) = "Small (<1B)"
  ∧ size_category (some 200000000000) = "Ultra-Large (100B+)" :=
  ⟨(c8_size_category 500000000).2.1 (by norm_num),
   (c8_size_category 200000000000).2.2.2.2.1 (by norm_num)⟩

/-- C2 counterexample: the claim predicts `"||a||"` splits into the
cells of `"|a|"` — an empty first and last cell around `"a"` — but the
Row Extractor (which strips ALL outer pipes, not one of each) yields
just `["a"]`. -/
theorem c2_counterexample :
    parseRow "||a||" = ["a"] ∧ parseRow "||a||" ≠ ["", "a", ""] := by
  decide

/-- C2 amended: for every candidate line the Row Extractor strips ALL
leading and trailing delimiters (so surrounding a line with extra
delimiters never changes its cells), splits the remainder on the
delimiter, and trims whitespace from each cell; `"||a||"` yields just
`["a"]`. -/
theorem c2_amended (line : String) :
    parseRow ("|" ++ line) = parseRow line
  ∧ parseRow (line ++ "|") = parseRow line
  ∧ parseRow "||a||" = ["a"] := by
  refine ⟨?_, ?_, by decide⟩
  · have h : pyStripPipes ("|" ++ line) = pyStripPipes line := by
      unfold pyStripPipes
      have h2 : ("|" ++ line).toList = '|' :: line.toList := by
        show ("|" ++ line).data = '|' :: line.data
        rw [String.data_append]
        rfl
      rw [h2, stripList_cons_of (by decide)]
    unfold parseRow
    rw [h]
  · have h : pyStripPipes (line ++ "|") = pyStripPipes line := by
      unfold pyStripPipes
      have h2 : (line ++ "|").toList = line.toList ++ ['|'] := by
        show (line ++ "|").data = line.data ++ ['|']
        rw [String.data_append]
      rw [h2, stripList_append_of (by decide)]
    unfold parseRow
    rw [h]

/-- C10: `parse_block` never mutates the module-level `ESTIMATE_COLUMNS`
(modelled by threading the global through explicitly): after any call —
on any block whatsoever, estimate-labelled or not, with any data-row
length — the global still holds the same 16 names in the same order, and
the returned pair agrees with the pure `parse_block`. -/
theorem c10_estimate_columns_unchanged (block : List String) :
    (parse_block_global block ESTIMATE_COLUMNS).2 = ESTIMATE_COLUMNS
  ∧ (parse_block_global block ESTIMATE_COLUMNS).1 = parse_block block
  ∧ ESTIMATE_COLUMNS = ["ARCH", "CONTEXT SIZE", "BATCH SIZE (L / P)",
      "FLASH ATTENTION", "MMAP LOAD", "EMBEDDING ONLY", "RERANKING",
      "DISTRIBUTABLE", "OFFLOAD LAYERS", "FULL OFFLOADED",
      "RAM LAYERS (I + T + O)", "RAM UMA", "RAM NONUMA",
      "VRAM0 LAYERS (T + O)", "VRAM0 UMA", "VRAM0 NONUMA"] := by
  refine ⟨?_, ?_, rfl⟩ <;>
  · rcases hrows : (candidateRows block).map parseRow with - | ⟨first, rest⟩
    · simp [parse_block_global, parse_block, parse_block_full, hrows]
    · rcases hlast : (rest.filter (fun r => r.length > 1)).getLast? with - | data_row
      · simp [parse_block_global, parse_block, parse_block_full, hrows, hlast]
      · simp [parse_block_global, parse_block, parse_block_full, hrows, hlast]

/-- C1 counterexample: in the block `["|T|", "|A|A|", "|x|y|z|"]` the
data row has 3 cells against 2 normalized columns, yet the values
mapping has only 2 entries — the cell `"x"` is overwritten by `"y"`
under the duplicated column name `"A"`, so a data cell IS dropped. -/
theorem c1_counterexample :
    (parse_block_full ["|T|", "|A|A|", "|x|y|z|"]).headerColumns.length <
      (parse_block_full ["|T|", "|A|A|", "|x|y|z|"]).dataRow.length
  ∧ (parse_block ["|T|", "|A|A|", "|x|y|z|"]).2 = [("A", "y"), ("EXTRA_2", "z")]
  ∧ (parse_block ["|T|", "|A|A|", "|x|y|z|"]).2.length ≠
      (parse_block_full ["|T|", "|A|A|", "|x|y|z|"]).dataRow.length := by
  decide

/-- C1 amended: when the data row has more cells than the normalized
column list, synthetic names `EXTRA_len, EXTRA_len+1, …` are appended in
order for the surplus cells; and whenever the extended column list is
duplicate-free, the values mapping keeps one entry per data cell — no
data cell is dropped (with duplicated column names, later cells
overwrite earlier ones). -/
theorem c1_extra_columns (block : List String)
    (h : (parse_block_full block).headerColumns.length <
      (parse_block_full block).dataRow.length) :
    (parse_block_full block).columns =
      (parse_block_full block).headerColumns ++
        (List.range' (parse_block_full block).headerColumns.length
          ((parse_block_full block).dataRow.length -
            (parse_block_full block).headerColumns.length)).map extraName
  ∧ ((parse_block_full block).columns.Nodup →
      (parse_block_full block).values =
        (parse_block_full block).columns.zip (parse_block_full block).dataRow
      ∧ (parse_block_full block).values.length =
          (parse_block_full block).dataRow.length) := by
  obtain ⟨hcols, hvals⟩ := parse_block_full_shape block
  have hlen : (parse_block_full block).columns.length =
      (parse_block_full block).dataRow.length := by
    rw [hcols]
    exact reconcileColumns_length _ _
  constructor
  · rw [hcols]
    unfold reconcileColumns
    rw [if_pos h]
  · intro hnd
    have hfst : ((parse_block_full block).columns.zip
        (parse_block_full block).dataRow).map Prod.fst =
        (parse_block_full block).columns := by
      exact List.map_fst_zip _ _ (le_of_eq hlen)
    have hself : pyDict ((parse_block_full block).columns.zip
        (parse_block_full block).dataRow) =
        (parse_block_full block).columns.zip (parse_block_full block).dataRow :=
      pyDict_eq_self_of_nodup (by rw [hfst]; exact hnd)
    refine ⟨hvals.trans hself, ?_⟩
    rw [hvals, hself, List.length_zip, hlen]
    exact Nat.min_self _

/-- Witness for C1 (amended): a concrete ragged block with distinct
columns keeps all three data cells. -/
theorem c1_extra_columns_witness :
    (parse_block ["|T|", "|A|B|", "|x|y|z|"]).2.length = 3 := by
  have h := c1_extra_columns ["|T|", "|A|B|", "|x|y|z|"] (by decide)
  have h2 := h.2 (by decide)
  exact h2.2.trans (by decide)

/-- C4: a block whose label is `ESTIMATE` and which has a data row gets
the fixed 16-name schema — truncated to the data-row length, or extended
with `EXTRA_16, …` past 16 cells — no matter what its in-file header rows
contained. -/
theorem c4_estimate_schema (block : List String)
    (hlab : (parse_block_full block).label = some "ESTIMATE")
    (hdat : (parse_block_full block).dataRow ≠ []) :
    (parse_block_full block).headerColumns = ESTIMATE_COLUMNS
  ∧ (parse_block_full block).columns =
      ESTIMATE_COLUMNS.take (parse_block_full block).dataRow.length ++
        (List.range' 16 ((parse_block_full block).dataRow.length - 16)).map
          extraName := by
  obtain ⟨first, rest, data_row, hrows, hlast, hfull⟩ :=
    parse_block_full_dataRow_ne block hdat
  have hlabel : pyUpper (first.headD "") = "ESTIMATE" := by
    rw [hfull] at hlab
    exact Option.some.inj hlab
  rw [hfull]
  simp only [hlabel, if_pos rfl, collapseSpaces_estimate]
  exact ⟨rfl, reconcileColumns_estimate data_row⟩

/-- Witness for C4: a lower-case `estimate` label with a junk 3-cell
header still produces the first three names of the fixed schema. -/
theorem c4_estimate_schema_witness :
    (parse_block_full ["|estimate|", "|h1|h2|h3|", "|a|b|c|"]).columns =
      ["ARCH", "CONTEXT SIZE", "BATCH SIZE (L / P)"] := by
  have h := c4_estimate_schema ["|estimate|", "|h1|h2|h3|", "|a|b|c|"]
    (by decide) (by decide)
  exact h.2.trans (by decide)

/-- C3: when `METADATA_PARAMETERS` never appears in any record the run
does NOT succeed — the pandas column access raises `KeyError` before the
column-order fallback can run (code bug relative to the claim); when the
column does appear, `MODEL_SIZE_CATEGORY` is inserted immediately after
it. Both behaviours evaluated end-to-end from file text. -/
theorem c3_keyerror_on_missing_parameters :
    parse_file "|T|\n|A|B|\n|x|y|" "a.txt" =
      some [("file", "a.txt"), ("T_A", "x"), ("T_B", "y")]
  ∧ mainColumnOrder [[("file", "a.txt"), ("T_A", "x"), ("T_B", "y")]] =
      Except.error "KeyError: METADATA_PARAMETERS"
  ∧ parse_file "|METADATA|\n|NAME|PARAMETERS|\n|m|7.5 B|" "b.txt" =
      some [("file", "b.txt"), ("METADATA_NAME", "m"),
        ("METADATA_PARAMETERS", "7.5 B")]
  ∧ mainColumnOrder [[("file", "b.txt"), ("METADATA_NAME", "m"),
        ("METADATA_PARAMETERS", "7.5 B")]] =
      Except.ok ["file", "METADATA_NAME", "METADATA_PARAMETERS",
        "MODEL_SIZE_CATEGORY"] := by
  refine ⟨by decide, rfl, by decide, rfl⟩

/-- Inserting a fresh element at a positive in-range index keeps the
original list as a sublist, keeps the head, and keeps distinctness. -/
lemma insertIdx_props (x : String) (n : Nat) (l : List String)
    (hnd : l.Nodup) (hx : x ∉ l) (h1 : 1 ≤ n) (h2 : n ≤ l.length) :
    List.Sublist l (List.insertIdx n x l)
  ∧ (List.insertIdx n x l).head? = l.head?
  ∧ (List.insertIdx n x l).Nodup := by
  refine ⟨sublist_insertIdx x n l, head?_insertIdx_pos x n l h1, ?_⟩
  rw [(List.perm_insertIdx x l h2).nodup_iff]
  exact List.nodup_cons.mpr ⟨hx, hnd⟩

/-- The derived-column insertion never reorders, keeps the head, and
keeps distinctness. -/
lemma insertDerivedColumn_props (order : List String)
    (hnd : order.Nodup) (hne : order ≠ []) :
    List.Sublist order (insertDerivedColumn order)
  ∧ (insertDerivedColumn order).head? = order.head?
  ∧ (insertDerivedColumn order).Nodup := by
  have hdef : insertDerivedColumn order =
      if "MODEL_SIZE_CATEGORY" ∈ order then order
      else List.insertIdx
        (if "METADATA_PARAMETERS" ∈ order then
          List.indexOf "METADATA_PARAMETERS" order + 1
        else order.length) "MODEL_SIZE_CATEGORY" order := rfl
  rw [hdef]
  by_cases hmsc : "MODEL_SIZE_CATEGORY" ∈ order
  · rw [if_pos hmsc]
    exact ⟨List.Sublist.refl _, rfl, hnd⟩
  · rw [if_neg hmsc]
    by_cases hmp : "METADATA_PARAMETERS" ∈ order
    · rw [if_pos hmp]
      exact insertIdx_props _ _ _ hnd hmsc (by omega)
        (List.indexOf_lt_length.mpr hmp)
    · rw [if_neg hmp]
      exact insertIdx_props _ _ _ hnd hmsc
        (by have := List.length_pos.mpr hne; omega) le_rfl

/-- C9: the column-order accumulator starts at `"file"` and keeps it
first, each step leaves the previously seen keys as an untouched prefix
and appends only fresh, mutually distinct keys, and inserting the
derived `MODEL_SIZE_CATEGORY` preserves the relative order of the keys
discovered before it, the leading `"file"`, and distinctness. -/
theorem c9_column_order (records : List (List (String × String))) :
    (buildColumnOrder records).head? = some "file"
  ∧ (buildColumnOrder records).Nodup
  ∧ (∀ o r, ∃ new, updateColumnOrder o r = o ++ new
      ∧ (∀ k ∈ new, k ∉ o) ∧ new.Nodup)
  ∧ List.Sublist (buildColumnOrder records)
      (insertDerivedColumn (buildColumnOrder records))
  ∧ (insertDerivedColumn (buildColumnOrder records)).head? = some "file"
  ∧ (insertDerivedColumn (buildColumnOrder records)).Nodup := by
  obtain ⟨new, heq, hfresh, hnd⟩ :=
    foldl_updateColumnOrder_append records ["file"]
  have hbuild : buildColumnOrder records = "file" :: new := heq
  have hhead : (buildColumnOrder records).head? = some "file" := by
    rw [hbuild]; rfl
  have hnodup : (buildColumnOrder records).Nodup := by
    rw [hbuild]
    refine List.nodup_cons.mpr ⟨?_, hnd⟩
    intro hcon
    exact hfresh "file" hcon (by simp)
  have hne : buildColumnOrder records ≠ [] := by
    rw [hbuild]; exact List.cons_ne_nil _ _
  obtain ⟨hsub, hh, hnd2⟩ := insertDerivedColumn_props _ hnodup hne
  exact ⟨hhead, hnodup, fun o r => updateColumnOrder_append o r,
    hsub, hh.trans hhead, hnd2⟩

/-- C7: the output rows are sorted ascending by size-category bucket
index, then by raw parameter count within a bucket with absent counts
last, and are a permutation of the input records. -/
theorem c7_row_order (records : List (List (String × String))) :
    (sortedRecords records).Pairwise rowClaimOrder
  ∧ (sortedRecords records).Perm records := by
  constructor
  · exact (@List.sorted_mergeSort _ rowLE rowLE_trans rowLE_total
      records).imp (fun hab => (rowLE_iff _ _).mp hab)
  · exact List.mergeSort_perm records rowLE

/-- C5: `parse_parameters` is absent on absent or blank input; on any
string it succeeds with value `q` exactly when the stripped string
starts with the spec's leading pattern (digits, optional decimal
fraction, optional whitespace, one unit letter) and `q` is the amount
times the unit multiplier; and the four concrete test values hold,
with `"22.57 M"` and `"1.78B"` exact. -/
theorem c5_parse_parameters :
    parse_parameters none = none
  ∧ (∀ s, pyStrip s = "" → parse_parameters (some s) = none)
  ∧ (∀ s q, parse_parameters (some s) = some q ↔
      SpecMagnitude (pyStrip s).toList q)
  ∧ parse_parameters (some "22.57 M") = some 22570000
  ∧ parse_parameters (some "1.78B") = some 1780000000
  ∧ parse_parameters (some "abc") = none := by
  refine ⟨rfl, ?_, ?_, ?_, ?_, rfl⟩
  · intro s hs
    simp [parse_parameters, hs]
  · intro s q
    constructor
    · intro h
      simp only [parse_parameters] at h
      by_cases hs : pyStrip s = ""
      · rw [if_pos hs] at h
        exact absurd h (by simp)
      · rw [if_neg hs] at h
        rcases hm : matchMagnitude (pyStrip s).toList with - | t
        · rw [hm] at h
          exact absurd h (by simp)
        · rw [hm] at h
          obtain ⟨ip, fv, fl, u⟩ := t
          obtain ⟨hu, ds, fs, w, rest, hcs, hds, hdig, hfs, hw, hip, hfv, hfl⟩ :=
            matchMagnitude_sound hm
          simp only [magnitudeValue] at h
          rw [unitLookup_of_unit hu] at h
          refine ⟨ds, fs, w, rest, u, ?_, hds, hdig, hfs, hw, hu, ?_⟩
          · rw [hcs]
            simp [List.append_assoc]
          · have hq : q = ((ip : ℚ) + (fv : ℚ) / 10 ^ fl) * specMultiplier u :=
              (Option.some.inj h).symm
            rw [hq, ← hip, ← hfv, ← hfl]
            rfl
    · rintro ⟨ds, fs, w, rest, u, hcs, hds, hdig, hfs, hw, hu, hq⟩
      have hcs2 : (pyStrip s).toList = ds ++ (fracRepr fs ++ (w ++ u :: rest)) := by
        rw [hcs]
        simp [List.append_assoc]
      have hm := @matchMagnitude_complete ds fs w rest u hds hdig hfs hw hu
      rw [← hcs2] at hm
      have hs : pyStrip s ≠ "" := by
        intro hcon
        have hl : (pyStrip s).toList = [] := by rw [hcon]; rfl
        rw [hcs2] at hl
        exact hds (List.append_eq_nil.mp hl).1
      simp only [parse_parameters]
      rw [if_neg hs, hm]
      simp only [magnitudeValue]
      rw [unitLookup_of_unit hu, hq]
      rfl
  · have h : parse_parameters (some "22.57 M") =
        magnitudeValue (22, 57, 2, 'M') := rfl
    have h2 : unitLookup 'M'.toUpper = some 1000000 := rfl
    rw [h]
    simp only [magnitudeValue]
    rw [h2]
    norm_num
  · have h : parse_parameters (some "1.78B") =
        magnitudeValue (1, 78, 2, 'B') := rfl
    have h2 : unitLookup 'B'.toUpper = some 1000000000 := rfl
    rw [h]
    simp only [magnitudeValue]
    rw [h2]
    norm_num

/-- Witness for C5 at a concrete blank string: whitespace-only input is
absent. -/
theorem c5_parse_parameters_witness :
    pyStrip "   " = "" ∧ parse_parameters (some "   ") = none :=
  ⟨by decide, c5_parse_parameters.2.1 "   " (by decide)⟩

end ConvertLogs
